import Mathlib

/-!
Shallow embedding of the DDPG agent core from `ddpg_agent.py` and
`ddpg_agent_updated.py`: the replay buffer (a `collections.deque` with
`maxlen`), the Ornstein-Uhlenbeck noise process, and the agent controller
(`step`, `act`, `learn`, `soft_update`, `hard_update`, `__init__`).

Floating-point values are modelled as rationals; the neural networks
(`model.Actor`, `model.Critic`) are external collaborators and appear as
abstract functions.  Randomness (`random.random`, `random.sample`) is
modelled by passing the drawn values explicitly.
-/

namespace DDPG

/-- A state or action vector (numpy array of floats). -/
abbrev Vec := List ℚ

/-- One experience record, the `namedtuple("Experience", ...)` stored by
`ReplayBuffer.add`; `done` is stored as the boolean flag given by the
environment. -/
structure Transition where
  state : Vec
  action : Vec
  reward : ℚ
  next_state : Vec
  done : Bool
deriving DecidableEq, Repr

/-- Default transition used as the out-of-range fallback for `List.getD`. -/
def Transition.dflt : Transition := ⟨[], [], 0, [], false⟩

/-! ## Replay buffer storage: `deque(maxlen=buffer_size)`

`ReplayBuffer.__init__` creates `self.memory = deque(maxlen=buffer_size)`;
`ReplayBuffer.add` appends on the right, and the deque discards from the
left when it is at `maxlen`.  Appending then keeping the last `maxlen`
elements is exactly that behaviour. -/

/-- `memory.append(e)` on a `deque(maxlen=cap)`: append on the right and
drop from the left whatever exceeds the capacity. -/
def dequeAppend (cap : ℕ) (mem : List Transition) (e : Transition) : List Transition :=
  let l := mem ++ [e]
  l.drop (l.length - cap)

/-- Appending a whole list of transitions in order (repeated
`memory.append`). -/
def dequeAppendAll (cap : ℕ) (mem : List Transition) (es : List Transition) : List Transition :=
  es.foldl (dequeAppend cap) mem

theorem dequeAppend_length_le (cap : ℕ) (mem : List Transition) (e : Transition) :
    (dequeAppend cap mem e).length ≤ cap := by
  simp only [dequeAppend, List.length_drop, List.length_append, List.length_cons]
  omega

theorem dequeAppendAll_eq_drop (cap : ℕ) :
    ∀ (es : List Transition) (mem : List Transition), mem.length ≤ cap →
      dequeAppendAll cap mem es = (mem ++ es).drop ((mem ++ es).length - cap) := by
  intro es
  induction es with
  | nil =>
      intro mem hmem
      simp only [dequeAppendAll, List.foldl_nil, List.append_nil]
      have : mem.length - cap = 0 := by omega
      simp [this]
  | cons e es ih =>
      intro mem hmem
      have hstep : dequeAppendAll cap mem (e :: es) = dequeAppendAll cap (dequeAppend cap mem e) es := by
        simp [dequeAppendAll]
      rw [hstep, ih _ (dequeAppend_length_le cap mem e)]
      simp only [dequeAppend]
      set L := mem ++ [e] with hL
      have hLlen : L.length = mem.length + 1 := by simp [hL]
      have hdrop_le : L.length - cap ≤ L.length := by omega
      rw [← List.drop_append_of_le_length hdrop_le, List.drop_drop]
      have hassoc : L ++ es = mem ++ e :: es := by simp [hL]
      rw [hassoc]
      congr 1
      simp only [List.length_drop, List.length_append, List.length_cons, hLlen]
      omega

theorem dequeAppendAll_length_le (cap : ℕ) (es : List Transition) :
    (dequeAppendAll cap [] es).length ≤ cap := by
  rw [dequeAppendAll_eq_drop cap es [] (by simp)]
  simp only [List.nil_append, List.length_drop]
  omega

/-! ## Replay buffer sampling: `random.sample(self.memory, k=self.batch_size)`

`random.sample(population, k)` raises `ValueError` when `k` exceeds the
population size; otherwise it returns the elements at `k` distinct
positions chosen by the RNG, leaving the population untouched.  The
random draw is modelled by passing the chosen positions explicitly. -/

/-- Model of `random.sample(mem, k)` where `positions` is the list of
distinct indices drawn by the RNG. -/
def randomSample (mem : List Transition) (k : ℕ) (positions : List ℕ) :
    Except String (List Transition) :=
  if mem.length < k then Except.error "Sample larger than population or is negative"
  else Except.ok (positions.map (fun i => mem.getD i Transition.dflt))

/-- The five batch-aligned columns returned by `ReplayBuffer.sample`:
`(states, actions, rewards, next_states, dones)`, with the `done` booleans
converted to `0`/`1` floats (`astype(np.uint8)` then `.float()`). -/
structure Batch where
  states : List Vec
  actions : List Vec
  rewards : List ℚ
  next_states : List Vec
  dones : List ℚ
deriving DecidableEq, Repr

/-- The numeric done flag stored in a sampled batch. -/
def doneFlag (e : Transition) : ℚ := if e.done then 1 else 0

/-- `ReplayBuffer.sample`: draw `batch_size` transitions via `random.sample`
and stack each field into its own column. -/
def ReplayBuffer.sampleBatch (mem : List Transition) (batch_size : ℕ)
    (positions : List ℕ) : Except String Batch :=
  (randomSample mem batch_size positions).map (fun es =>
    ⟨es.map (·.state), es.map (·.action), es.map (·.reward),
     es.map (·.next_state), es.map doneFlag⟩)

/-! ## Networks and the learning phase

`model.Actor` and `model.Critic` are external approximators; they enter the
embedding as abstract functions.  A critic applied to a batch acts row by
row, so the batched tensor expressions of `Agent.learn` are read
per-transition. -/

/-- The four approximator instances held by an `Agent`. -/
structure Networks where
  actor_local : Vec → Vec
  actor_target : Vec → Vec
  critic_local : Vec → Vec → ℚ
  critic_target : Vec → Vec → ℚ

/-- The TD targets computed in `Agent.learn`:
`actions_next = self.actor_target(next_states)`;
`Q_targets_next = self.critic_target(next_states, actions_next)`;
`Q_targets = rewards + (gamma * Q_targets_next * (1 - dones))`,
read row by row over the sampled batch. -/
def learnQTargets (nets : Networks) (gamma : ℚ) (batch : List Transition) : List ℚ :=
  batch.map (fun e =>
    let actions_next := nets.actor_target e.next_state
    let q_next := nets.critic_target e.next_state actions_next
    e.reward + (gamma * q_next * (1 - doneFlag e)))

/-! ## Soft and hard target updates -/

/-- The module-level constant `TAU = 1e-3`. -/
def moduleTAU : ℚ := 1 / 1000

/-- `Agent.soft_update(local_model, target_model, tau)`:
`target_param ← tau*local_param + (1.0-tau)*target_param` over the zipped
parameter lists. -/
def soft_update (tau : ℚ) (localParams targetParams : List ℚ) : List ℚ :=
  List.zipWith (fun l t => tau * l + (1 - tau) * t) localParams targetParams

/-- `Agent.hard_update(target_model, local_model)`: each target parameter is
overwritten by a copy of the corresponding local parameter. -/
def hard_update (targetParams localParams : List ℚ) : List ℚ :=
  List.zipWith (fun _t l => l) targetParams localParams

/-- The hyperparameters stored on the `Agent` at construction. -/
structure AgentHyper where
  gamma : ℚ
  tau : ℚ
  learning_rate : ℕ
  time_update : ℕ
  batch_size : ℕ
  buffer_size : ℕ
deriving DecidableEq, Repr

/-- The target-network update at the end of `Agent.learn`:
`self.soft_update(self.critic_local, self.critic_target, TAU)` and
`self.soft_update(self.actor_local, self.actor_target, TAU)` — both calls
pass the module constant `TAU`, not the stored `self.tau`. -/
def learnTargetUpdatePhase (_self : AgentHyper)
    (criticLocal criticTarget actorLocal actorTarget : List ℚ) :
    List ℚ × List ℚ :=
  (soft_update moduleTAU criticLocal criticTarget,
   soft_update moduleTAU actorLocal actorTarget)

/-- **C5.** Replay-buffer FIFO invariant: the size never exceeds the
configured capacity, and after inserting `cap + k` transitions (`k > 0`)
starting from an empty buffer the size is exactly `cap` and the contents
are exactly the last `cap` transitions inserted, in insertion order
(FIFO eviction of the oldest). -/
theorem replay_buffer_capacity_fifo :
    (∀ (cap : ℕ) (es : List Transition), (dequeAppendAll cap [] es).length ≤ cap) ∧
    (∀ (cap k : ℕ) (es : List Transition), 0 < k → es.length = cap + k →
      (dequeAppendAll cap [] es).length = cap ∧
      dequeAppendAll cap [] es = es.drop k) := by
  refine ⟨dequeAppendAll_length_le, ?_⟩
  intro cap k es hk hes
  have h := dequeAppendAll_eq_drop cap es [] (by simp)
  simp only [List.nil_append] at h
  rw [h]
  constructor
  · simp only [List.length_drop]
    omega
  · congr 1
    omega

/-- Witness for C5 at capacity 2 with three insertions. -/
theorem replay_buffer_capacity_fifo_witness :
    (dequeAppendAll 2 [] [⟨[1], [], 0, [], false⟩, ⟨[2], [], 0, [], false⟩,
        ⟨[3], [], 0, [], false⟩]).length = 2 ∧
    dequeAppendAll 2 [] [⟨[1], [], 0, [], false⟩, ⟨[2], [], 0, [], false⟩,
        ⟨[3], [], 0, [], false⟩] =
      [⟨[2], [], 0, [], false⟩, ⟨[3], [], 0, [], false⟩] := by
  have h := replay_buffer_capacity_fifo.2 2 1
    [⟨[1], [], 0, [], false⟩, ⟨[2], [], 0, [], false⟩, ⟨[3], [], 0, [], false⟩]
    (by decide) (by decide)
  exact ⟨h.1, h.2⟩

/-- **C6.** `ReplayBuffer.sample` with a draw of `batch_size` distinct valid
positions: when `batch_size ≤ size` it succeeds and returns five
batch-aligned columns, each of length `batch_size`, whose `j`-th entries all
come from one transition currently in the buffer, drawn at pairwise-distinct
positions (without replacement); when `batch_size > size` the call fails
with `random.sample`'s error rather than truncating or padding. -/
theorem replay_sample_spec (mem : List Transition) (k : ℕ) (positions : List ℕ) :
    (k ≤ mem.length → positions.length = k → positions.Nodup →
      (∀ i ∈ positions, i < mem.length) →
      ∃ b : Batch, ReplayBuffer.sampleBatch mem k positions = Except.ok b ∧
        b.states.length = k ∧ b.actions.length = k ∧ b.rewards.length = k ∧
        b.next_states.length = k ∧ b.dones.length = k ∧
        (∀ j1 j2, j1 < k → j2 < k → j1 ≠ j2 →
          positions.getD j1 0 ≠ positions.getD j2 0) ∧
        ∀ j, j < k → ∃ e, e ∈ mem ∧
          b.states.getD j [] = e.state ∧
          b.actions.getD j [] = e.action ∧
          b.rewards.getD j 0 = e.reward ∧
          b.next_states.getD j [] = e.next_state ∧
          b.dones.getD j 0 = doneFlag e) ∧
    (mem.length < k →
      ReplayBuffer.sampleBatch mem k positions =
        Except.error "Sample larger than population or is negative") := by
  constructor
  · intro hk hplen hnodup hpos
    have hnot : ¬ mem.length < k := Nat.not_lt.mpr hk
    refine ⟨⟨(positions.map (fun i => mem.getD i Transition.dflt)).map (·.state),
            (positions.map (fun i => mem.getD i Transition.dflt)).map (·.action),
            (positions.map (fun i => mem.getD i Transition.dflt)).map (·.reward),
            (positions.map (fun i => mem.getD i Transition.dflt)).map (·.next_state),
            (positions.map (fun i => mem.getD i Transition.dflt)).map doneFlag⟩,
          ?_, ?_, ?_, ?_, ?_, ?_, ?_, ?_⟩
    · simp [ReplayBuffer.sampleBatch, randomSample, hnot, Except.map, List.map_map]
    · simp [hplen]
    · simp [hplen]
    · simp [hplen]
    · simp [hplen]
    · simp [hplen]
    · intro j1 j2 hj1 hj2 hne
      have hj1' : j1 < positions.length := by omega
      have hj2' : j2 < positions.length := by omega
      rw [List.getD_eq_getElem positions 0 hj1', List.getD_eq_getElem positions 0 hj2']
      intro heq
      exact hne (List.Nodup.getElem_inj_iff hnodup |>.mp heq)
    · intro j hj
      have hj' : j < positions.length := by omega
      have hjm : j < (positions.map (fun i => mem.getD i Transition.dflt)).length := by
        simpa using hj'
      have hidx : positions[j] < mem.length := hpos _ (positions.getElem_mem hj')
      refine ⟨mem.getD positions[j] Transition.dflt, ?_, ?_, ?_, ?_, ?_, ?_⟩
      · rw [List.getD_eq_getElem mem Transition.dflt hidx]
        exact mem.getElem_mem hidx
      all_goals
        rw [List.getD_eq_getElem _ _ (by simpa using hj')]
        simp
  · intro hk
    simp [ReplayBuffer.sampleBatch, randomSample, hk, Except.map]

/-- Witness for C6: a buffer of three transitions, batch size 2, positions
`[2, 0]`, and the rejection case with batch size 4. -/
theorem replay_sample_spec_witness :
    ((2 : ℕ) ≤ 3 ∧
      ∃ b : Batch,
        ReplayBuffer.sampleBatch
          [⟨[1], [], 5, [], false⟩, ⟨[2], [], 6, [], true⟩, ⟨[3], [], 7, [], false⟩]
          2 [2, 0] = Except.ok b ∧
        b.states.length = 2 ∧ b.actions.length = 2 ∧ b.rewards.length = 2 ∧
        b.next_states.length = 2 ∧ b.dones.length = 2 ∧
        (∀ j1 j2, j1 < 2 → j2 < 2 → j1 ≠ j2 →
          List.getD [2, 0] j1 0 ≠ List.getD [2, 0] j2 0) ∧
        ∀ j, j < 2 → ∃ e, e ∈
            [⟨[1], [], 5, [], false⟩, ⟨[2], [], 6, [], true⟩, ⟨[3], [], 7, [], false⟩] ∧
          b.states.getD j [] = e.state ∧
          b.actions.getD j [] = e.action ∧
          b.rewards.getD j 0 = e.reward ∧
          b.next_states.getD j [] = e.next_state ∧
          b.dones.getD j 0 = doneFlag e) ∧
    ReplayBuffer.sampleBatch
      [⟨[1], [], 5, [], false⟩, ⟨[2], [], 6, [], true⟩, ⟨[3], [], 7, [], false⟩]
      4 [] =
        Except.error "Sample larger than population or is negative" := by
  have h1 := replay_sample_spec
    [⟨[1], [], 5, [], false⟩, ⟨[2], [], 6, [], true⟩, ⟨[3], [], 7, [], false⟩]
    2 [2, 0]
  have h2 := replay_sample_spec
    [⟨[1], [], 5, [], false⟩, ⟨[2], [], 6, [], true⟩, ⟨[3], [], 7, [], false⟩]
    4 []
  constructor
  · exact ⟨by decide, h1.1 (by decide) (by decide) (by decide) (by decide)⟩
  · exact h2.2 (by decide)

/-- **C1.** The TD target computed in `Agent.learn` for the `j`-th sampled
transition equals
`reward + gamma * critic_target(next_state, actor_target(next_state)) * (1 - done)`;
for a terminal transition (`done = 1`) it equals the reward exactly, for
every `gamma` and every target critic. -/
theorem learn_td_target (nets : Networks) (gamma : ℚ) (batch : List Transition)
    (j : ℕ) (hj : j < batch.length) :
    (learnQTargets nets gamma batch).getD j 0 =
      (batch.getD j Transition.dflt).reward +
        gamma * nets.critic_target (batch.getD j Transition.dflt).next_state
            (nets.actor_target (batch.getD j Transition.dflt).next_state) *
          (1 - doneFlag (batch.getD j Transition.dflt)) ∧
    ((batch.getD j Transition.dflt).done = true →
      (learnQTargets nets gamma batch).getD j 0 =
        (batch.getD j Transition.dflt).reward) := by
  have hj' : j < (learnQTargets nets gamma batch).length := by
    simpa [learnQTargets] using hj
  have hbase : (learnQTargets nets gamma batch).getD j 0 =
      (batch.getD j Transition.dflt).reward +
        gamma * nets.critic_target (batch.getD j Transition.dflt).next_state
            (nets.actor_target (batch.getD j Transition.dflt).next_state) *
          (1 - doneFlag (batch.getD j Transition.dflt)) := by
    rw [List.getD_eq_getElem _ _ hj', List.getD_eq_getElem _ _ hj]
    simp [learnQTargets]
  refine ⟨hbase, fun hdone => ?_⟩
  have h1 : doneFlag (batch.getD j Transition.dflt) = 1 := by
    unfold doneFlag
    rw [if_pos hdone]
  rw [hbase, h1]
  ring

/-- Witness for C1: a one-element batch holding a terminal transition with
reward 7; with `gamma = 3` and a target critic returning 5 the TD target is
still exactly 7. -/
theorem learn_td_target_witness :
    (0 : ℕ) < 1 ∧
    (learnQTargets ⟨id, id, fun _ _ => 5, fun _ _ => 5⟩ 3
        [⟨[], [], 7, [], true⟩]).getD 0 0 = 7 := by
  refine ⟨by decide, ?_⟩
  have h := learn_td_target ⟨id, id, fun _ _ => 5, fun _ _ => 5⟩ 3
    [⟨[], [], 7, [], true⟩] 0 (by decide)
  exact h.2 rfl

/-- **C3 (divergence evidence).** The target-update phase of `Agent.learn`
always blends with the module constant `TAU = 1/1000`, regardless of the
`tau` stored on the agent: an agent configured with `tau = 1/2` still
produces target `1/1000` from `local = 1, target = 0`, whereas
`soft_update` with the configured `1/2` would produce `1/2`.  The
`soft_update` operation itself does satisfy `tau = 1 ↦ copy` and
`tau = 0 ↦ unchanged`. -/
theorem learn_soft_update_ignores_configured_tau :
    (∀ (self : AgentHyper) (cL cT aL aT : List ℚ),
        learnTargetUpdatePhase self cL cT aL aT =
          (soft_update moduleTAU cL cT, soft_update moduleTAU aL aT)) ∧
    learnTargetUpdatePhase ⟨99/100, 1/2, 10, 10, 256, 100000⟩ [1] [0] [1] [0] =
      ([1/1000], [1/1000]) ∧
    soft_update (1/2) [1] [0] = [1/2] ∧
    soft_update 1 [3] [7] = [3] ∧
    soft_update 0 [3] [7] = [7] ∧
    (1/1000 : ℚ) ≠ 1/2 := by
  refine ⟨fun _ _ _ _ _ => rfl, ?_, ?_, ?_, ?_, ?_⟩ <;>
    norm_num [learnTargetUpdatePhase, soft_update, moduleTAU, List.zipWith]

/-! ## Agent construction (ddpg_agent.py) and the actor update step -/

/-- The flattened parameter vectors of the four networks of an agent. -/
structure AgentNetParams where
  actor_local : List ℚ
  actor_target : List ℚ
  critic_local : List ℚ
  critic_target : List ℚ
deriving DecidableEq, Repr

/-- `Agent.__init__` (ddpg_agent.py): the four networks come up with
seed-dependent initial parameters, then
`self.hard_update(self.actor_target, self.actor_local)` and
`self.hard_update(self.critic_target, self.critic_local)` overwrite the
target parameters with a copy of the local ones. -/
def agentInitParams (aLocal aTarget cLocal cTarget : List ℚ) : AgentNetParams :=
  { actor_local := aLocal
    actor_target := hard_update aTarget aLocal
    critic_local := cLocal
    critic_target := hard_update cTarget cLocal }

/-- A parameter tensor together with its accumulated gradient
(`param.data`, `param.grad`). -/
structure TensorParam where
  data : List ℚ
  grad : List ℚ
deriving DecidableEq, Repr

/-- The four networks of an agent, with gradients tracked. -/
structure NetTensors where
  actor_local : TensorParam
  actor_target : TensorParam
  critic_local : TensorParam
  critic_target : TensorParam
deriving DecidableEq, Repr

/-- The actor update of `Agent.learn`
(`self.actor_optimizer.zero_grad(); actor_loss.backward();
self.actor_optimizer.step()`): `zero_grad` clears the gradients of the
parameters the actor optimizer owns (`actor_local` only, from
`optim.Adam(self.actor_local.parameters(), ...)`); `backward` on
`-self.critic_local(states, self.actor_local(states)).mean()` accumulates
gradients into every parameter of its graph — both `actor_local` and
`critic_local`; `step` applies the optimizer update (abstracted as `adam`)
to the actor optimizer's parameters only.  `gradActor` and `gradCritic` are
the gradients autograd produces for the actor-local and critic-local
parameters. -/
def actorUpdateStep (adam : List ℚ → List ℚ → List ℚ)
    (gradActor gradCritic : List ℚ) (p : NetTensors) : NetTensors :=
  let actorZeroed : TensorParam :=
    ⟨p.actor_local.data, List.replicate p.actor_local.grad.length 0⟩
  let actorBack : TensorParam :=
    ⟨actorZeroed.data, List.zipWith (· + ·) actorZeroed.grad gradActor⟩
  let criticBack : TensorParam :=
    ⟨p.critic_local.data, List.zipWith (· + ·) p.critic_local.grad gradCritic⟩
  { p with
    actor_local := ⟨adam actorBack.data actorBack.grad, actorBack.grad⟩
    critic_local := criticBack }

/-! ## Ornstein-Uhlenbeck noise process -/

/-- The `OUNoise` object: `self.mu = mu * np.ones(size)`, `self.theta`,
`self.sigma`, `self.state`. -/
structure OUNoiseProc where
  mu : List ℚ
  theta : ℚ
  sigma : ℚ
  state : List ℚ
deriving DecidableEq, Repr

/-- `OUNoise.reset`: `self.state = copy.copy(self.mu)`. -/
def OUNoiseProc.reset (n : OUNoiseProc) : OUNoiseProc :=
  { n with state := n.mu }

/-- `OUNoise.__init__`: stores `mu * np.ones(size)`, `theta`, `sigma` and
calls `self.reset()`. -/
def OUNoiseProc.init (size : ℕ) (mu theta sigma : ℚ) : OUNoiseProc :=
  OUNoiseProc.reset ⟨List.replicate size mu, theta, sigma, []⟩

/-- `OUNoise.sample`: `x = self.state`;
`dx = self.theta * (self.mu - x) + self.sigma * np.array([random.random() for i in range(len(x))])`;
`self.state = x + dx`; returns the new state.  `draws j` is the `j`-th
`random.random()` value of this call. -/
def OUNoiseProc.sample (n : OUNoiseProc) (draws : ℕ → ℚ) : OUNoiseProc × List ℚ :=
  let x := n.state
  let xi := (List.range x.length).map draws
  let dx := List.zipWith (· + ·)
    (List.zipWith (fun m xv => n.theta * (m - xv)) n.mu x)
    (xi.map (fun v => n.sigma * v))
  let newState := List.zipWith (· + ·) x dx
  ({ n with state := newState }, newState)

/-- `k` successive `sample()` calls; `draws c j` is the `j`-th
`random.random()` value of call `c`. -/
def OUNoiseProc.sampleIter (n : OUNoiseProc) (draws : ℕ → ℕ → ℚ) : ℕ → OUNoiseProc
  | 0 => n
  | k + 1 => ((OUNoiseProc.sampleIter n draws k).sample (draws k)).1

/-! ## Action selection (`Agent.act`, ddpg_agent.py) -/

/-- A single coordinate of `np.clip(action, -1, 1)`. -/
def clip1 (x : ℚ) : ℚ := min (max x (-1)) 1

/-- The noise addition of `Agent.act` when `add_noise` holds:
`for i in range(self.num_agents): action += self.noise[i].sample()`.
`action` is the whole `(num_agents, action_size)` array, so each
`+=` broadcasts agent `i`'s sample over every row. -/
def addNoiseAll (noiseSample : ℕ → Vec) (num_agents : ℕ) (actions : List Vec) : List Vec :=
  (List.range num_agents).foldl
    (fun acc i => acc.map (fun row => List.zipWith (· + ·) row (noiseSample i)))
    actions

/-- `Agent.act(state, add_noise)` (ddpg_agent.py) on a batch of per-agent
states: evaluate `actor_local` row by row, optionally add the noise
samples, and clip every coordinate to `[-1, 1]`.  `noiseSample i` is the
value returned by `self.noise[i].sample()` during this call. -/
def act1 (actor : Vec → Vec) (num_agents : ℕ) (noiseSample : ℕ → Vec)
    (states : List Vec) (add_noise : Bool) : List Vec :=
  let actions := states.map actor
  let noised := if add_noise then addNoiseAll noiseSample num_agents actions else actions
  noised.map (fun row => row.map clip1)

/-! ## Agent construction validation (ddpg_agent_updated.py) -/

/-- `collections.deque(maxlen=m)`: Python raises `ValueError` when `maxlen`
is negative; any non-negative `maxlen` (including 0) is accepted. -/
def mkDeque (maxlen : ℤ) : Except String (List Transition) :=
  if maxlen < 0 then Except.error "maxlen must be non-negative" else Except.ok []

/-- The configuration stored by `Agent.__init__` (ddpg_agent_updated.py),
together with the freshly created replay deque. -/
structure AgentCfg where
  gamma : ℚ
  tau : ℚ
  batch_size : ℤ
  buffer_size : ℤ
  memory : List Transition
deriving DecidableEq, Repr

/-- `Agent.__init__` (ddpg_agent_updated.py): stores `gamma`, `tau`,
`batch_size`, `buffer_size` unchecked and builds the replay buffer's
`deque(maxlen=buffer_size)`; no range check is performed on any
hyperparameter, so the only construction-time failure is the deque
rejecting a negative `maxlen`. -/
def agentInit (gamma tau : ℚ) (batch_size buffer_size : ℤ) : Except String AgentCfg :=
  (mkDeque buffer_size).map
    (fun mem => ⟨gamma, tau, batch_size, buffer_size, mem⟩)

/-! ## The `Agent.step` control flow -/

/-- The trace of one `Agent.step` call: the replay memory after the write,
the batches drawn by the learning iterations, and the RNG state after
them. -/
structure StepResult where
  memory : List Transition
  batches : List (List Transition)
  rng : ℕ
deriving DecidableEq, Repr

/-- `k` consecutive `self.memory.sample()` calls from RNG state `rng`:
the list of drawn batches and the final RNG state.  `S mem r` is one
sampler invocation: the batch it draws from `mem` at RNG state `r` and the
advanced RNG state. -/
def sampleTrace (S : List Transition → ℕ → List Transition × ℕ)
    (mem : List Transition) : ℕ → ℕ → List (List Transition) × ℕ
  | 0, rng => ([], rng)
  | k + 1, rng =>
      let br := S mem rng
      let rest := sampleTrace S mem k br.2
      (br.1 :: rest.1, rest.2)

/-- The RNG state after `k` sampler invocations on `mem` starting at
`rng`. -/
def rngIter (S : List Transition → ℕ → List Transition × ℕ)
    (mem : List Transition) (rng : ℕ) : ℕ → ℕ
  | 0 => rng
  | k + 1 => (S mem (rngIter S mem rng k)).2

/-- `Agent.step(time_step, states, actions, rewards, next_states, dones)`
(control flow): append the call's transitions to the replay deque
unconditionally; if `time_step % self.time_update > 0` return; otherwise,
if `len(self.memory) > batch_size`, run `self.learning_rate` learning
iterations, each calling `self.memory.sample()` afresh.  The drawn batches
are the learning trace; the network updates inside `learn` act on state
disjoint from this record and are modelled separately. -/
def agentStep (cfg : AgentHyper) (S : List Transition → ℕ → List Transition × ℕ)
    (mem : List Transition) (rng : ℕ) (time_step : ℕ)
    (transitions : List Transition) : StepResult :=
  let mem2 := dequeAppendAll cfg.buffer_size mem transitions
  if time_step % cfg.time_update > 0 then ⟨mem2, [], rng⟩
  else if cfg.batch_size < mem2.length then
    let tr := sampleTrace S mem2 cfg.learning_rate rng
    ⟨mem2, tr.1, tr.2⟩
  else ⟨mem2, [], rng⟩

theorem hard_update_eq_local : ∀ (t l : List ℚ), t.length = l.length → hard_update t l = l := by
  intro t
  induction t with
  | nil =>
      intro l h
      have : l = [] := List.length_eq_zero.mp (by simpa using h.symm)
      simp [hard_update, this]
  | cons a t ih =>
      intro l h
      cases l with
      | nil => simp at h
      | cons b l =>
          simp only [hard_update, List.zipWith_cons_cons]
          have := ih l (by simpa using h)
          simpa [hard_update] using this

/-- **C4.** Immediately after `Agent.__init__` (ddpg_agent.py), the target
parameters of both pairs equal the local parameters exactly, and the
result does not depend on the pre-copy target values at all — a full hard
copy, not a soft-update blend. -/
theorem agent_init_targets_equal_locals (aLocal aTarget cLocal cTarget : List ℚ)
    (ha : aTarget.length = aLocal.length) (hc : cTarget.length = cLocal.length) :
    (agentInitParams aLocal aTarget cLocal cTarget).actor_target =
      (agentInitParams aLocal aTarget cLocal cTarget).actor_local ∧
    (agentInitParams aLocal aTarget cLocal cTarget).critic_target =
      (agentInitParams aLocal aTarget cLocal cTarget).critic_local ∧
    (∀ aT2 cT2 : List ℚ, aT2.length = aLocal.length → cT2.length = cLocal.length →
      agentInitParams aLocal aT2 cLocal cT2 = agentInitParams aLocal aTarget cLocal cTarget) := by
  refine ⟨?_, ?_, ?_⟩
  · simp [agentInitParams, hard_update_eq_local aTarget aLocal ha]
  · simp [agentInitParams, hard_update_eq_local cTarget cLocal hc]
  · intro aT2 cT2 ha2 hc2
    simp [agentInitParams, hard_update_eq_local aTarget aLocal ha,
      hard_update_eq_local cTarget cLocal hc,
      hard_update_eq_local aT2 aLocal ha2, hard_update_eq_local cT2 cLocal hc2]

/-- Witness for C4 with concrete parameter vectors. -/
theorem agent_init_targets_equal_locals_witness :
    (agentInitParams [1, 2] [5, 6] [3] [9]).actor_target =
      (agentInitParams [1, 2] [5, 6] [3] [9]).actor_local ∧
    (agentInitParams [1, 2] [5, 6] [3] [9]).critic_target =
      (agentInitParams [1, 2] [5, 6] [3] [9]).critic_local ∧
    agentInitParams [1, 2] [7, 8] [3] [4] = agentInitParams [1, 2] [5, 6] [3] [9] := by
  have h := agent_init_targets_equal_locals [1, 2] [5, 6] [3] [9] (by decide) (by decide)
  exact ⟨h.1, h.2.1, h.2.2 [7, 8] [4] (by decide) (by decide)⟩

/-- **C9.** The actor update step of `Agent.learn` leaves every
critic-local parameter value unchanged (only the critic-local gradient
accumulator is touched by `backward`), and also leaves both target
networks untouched: only actor-local parameters are modified. -/
theorem actor_step_preserves_critic_values (adam : List ℚ → List ℚ → List ℚ)
    (gradActor gradCritic : List ℚ) (p : NetTensors) :
    (actorUpdateStep adam gradActor gradCritic p).critic_local.data = p.critic_local.data ∧
    (actorUpdateStep adam gradActor gradCritic p).critic_target = p.critic_target ∧
    (actorUpdateStep adam gradActor gradCritic p).actor_target = p.actor_target := by
  exact ⟨rfl, rfl, rfl⟩

theorem ou_sample_state_getD (n : OUNoiseProc) (draws : ℕ → ℚ)
    (hlen : n.mu.length = n.state.length) (j : ℕ) (hj : j < n.state.length) :
    ((n.sample draws).1.state).getD j 0 =
      n.state.getD j 0 +
        (n.theta * (n.mu.getD j 0 - n.state.getD j 0) + n.sigma * draws j) := by
  have hnew : ((n.sample draws).1.state).length = n.state.length := by
    simp [OUNoiseProc.sample, List.length_zipWith, hlen]
  rw [List.getD_eq_getElem _ _ (by omega : j < ((n.sample draws).1.state).length)]
  simp only [OUNoiseProc.sample]
  rw [List.getElem_zipWith, List.getElem_zipWith, List.getElem_zipWith,
    List.getElem_map, List.getElem_map, List.getElem_range,
    List.getD_eq_getElem n.state 0 hj, List.getD_eq_getElem n.mu 0 (by omega)]

theorem ou_sample_fixpoint (n : OUNoiseProc) (draws : ℕ → ℚ)
    (h0 : n.theta = 0) (h1 : n.sigma = 0) (hs : n.state = n.mu) :
    (n.sample draws).1.state = n.mu := by
  apply List.ext_getElem
  · simp [OUNoiseProc.sample, List.length_zipWith, hs]
  · intro i hi hi'
    simp only [OUNoiseProc.sample]
    rw [List.getElem_zipWith, List.getElem_zipWith, List.getElem_zipWith,
      List.getElem_map, List.getElem_map, List.getElem_range]
    simp only [h0, h1, List.getElem_of_eq hs]
    ring

theorem ou_sampleIter_fixpoint (n : OUNoiseProc) (draws : ℕ → ℕ → ℚ)
    (h0 : n.theta = 0) (h1 : n.sigma = 0) :
    ∀ k : ℕ, (n.reset.sampleIter draws k).state = n.mu ∧
      (n.reset.sampleIter draws k).mu = n.mu ∧
      (n.reset.sampleIter draws k).theta = 0 ∧
      (n.reset.sampleIter draws k).sigma = 0 := by
  intro k
  induction k with
  | zero => exact ⟨rfl, rfl, h0, h1⟩
  | succ k ih =>
      refine ⟨?_, ih.2.1, ih.2.2.1, ih.2.2.2⟩
      simp only [OUNoiseProc.sampleIter]
      rw [ou_sample_fixpoint _ _ ih.2.2.1 ih.2.2.2 (by rw [ih.1, ih.2.1])]
      exact ih.2.1

/-- **C8.** The noise process: `reset` sets the state to the mean vector,
`__init__` starts there, `sample` returns its new state, the new state is
`state + theta*(mu - state) + sigma*xi` coordinatewise (`xi` the fresh
uniform draws), and with `theta = 0` and `sigma = 0` any number of
`sample` calls after a `reset` leaves the state at the mean. -/
theorem ou_noise_spec :
    (∀ n : OUNoiseProc, n.reset.state = n.mu) ∧
    (∀ (size : ℕ) (mu theta sigma : ℚ),
        (OUNoiseProc.init size mu theta sigma).state = List.replicate size mu) ∧
    (∀ (n : OUNoiseProc) (draws : ℕ → ℚ), (n.sample draws).2 = (n.sample draws).1.state) ∧
    (∀ (n : OUNoiseProc) (draws : ℕ → ℚ) (j : ℕ),
        n.mu.length = n.state.length → j < n.state.length →
        ((n.sample draws).1.state).getD j 0 =
          n.state.getD j 0 +
            (n.theta * (n.mu.getD j 0 - n.state.getD j 0) + n.sigma * draws j)) ∧
    (∀ (n : OUNoiseProc) (draws : ℕ → ℕ → ℚ) (k : ℕ), n.theta = 0 → n.sigma = 0 →
        (n.reset.sampleIter draws k).state = n.mu) := by
  refine ⟨fun n => rfl, fun size mu theta sigma => rfl, fun n draws => rfl,
    fun n draws j h1 h2 => ou_sample_state_getD n draws h1 j h2,
    fun n draws k h0 h1 => (ou_sampleIter_fixpoint n draws h0 h1 k).1⟩

/-- Witness for C8: one concrete `sample` step and three `sample` calls of
a zero-coefficient process. -/
theorem ou_noise_spec_witness :
    (OUNoiseProc.reset ⟨[2], 1/2, 1/3, [5]⟩).state = [2] ∧
    ((OUNoiseProc.sample ⟨[2], 1/2, 1/3, [5]⟩ (fun _ => 1/4)).1.state).getD 0 0 =
      5 + (1/2 * (2 - 5) + 1/3 * (1/4)) ∧
    ((OUNoiseProc.reset ⟨[2, 3], 0, 0, [9, 9]⟩).sampleIter (fun _ _ => 7) 3).state = [2, 3] := by
  refine ⟨ou_noise_spec.1 _, ?_, ou_noise_spec.2.2.2.2 ⟨[2, 3], 0, 0, [9, 9]⟩ (fun _ _ => 7) 3 rfl rfl⟩
  have h := ou_noise_spec.2.2.2.1 ⟨[2], 1/2, 1/3, [5]⟩ (fun _ => 1/4) 0 (by decide) (by decide)
  simpa using h

theorem addNoiseAll_length (noiseSample : ℕ → Vec) :
    ∀ (num_agents : ℕ) (actions : List Vec),
      (addNoiseAll noiseSample num_agents actions).length = actions.length := by
  intro num_agents
  induction num_agents with
  | zero => intro actions; rfl
  | succ k ih =>
      intro actions
      simp only [addNoiseAll, List.range_succ, List.foldl_append, List.foldl_cons,
        List.foldl_nil]
      rw [List.length_map]
      exact ih actions

theorem addNoiseAll_row_length (noiseSample : ℕ → Vec) (A : ℕ)
    (hns : ∀ i, (noiseSample i).length = A) :
    ∀ (num_agents : ℕ) (actions : List Vec), (∀ r ∈ actions, r.length = A) →
      ∀ r ∈ addNoiseAll noiseSample num_agents actions, r.length = A := by
  intro num_agents
  induction num_agents with
  | zero => intro actions h; exact h
  | succ k ih =>
      intro actions h r hr
      simp only [addNoiseAll, List.range_succ, List.foldl_append, List.foldl_cons,
        List.foldl_nil] at hr
      obtain ⟨r0, hr0, rfl⟩ := List.mem_map.mp hr
      rw [List.length_zipWith, ih actions h r0 hr0, hns k]
      simp

theorem addNoiseAll_getD (noiseSample : ℕ → Vec) (A : ℕ)
    (hns : ∀ i, (noiseSample i).length = A) :
    ∀ (num_agents : ℕ) (actions : List Vec), (∀ r ∈ actions, r.length = A) →
      ∀ j c, j < actions.length → c < A →
        ((addNoiseAll noiseSample num_agents actions).getD j []).getD c 0 =
          (actions.getD j []).getD c 0 +
            ∑ i ∈ Finset.range num_agents, (noiseSample i).getD c 0 := by
  intro num_agents
  induction num_agents with
  | zero =>
      intro actions _ j c _ _
      simp [addNoiseAll]
  | succ k ih =>
      intro actions h j c hj hc
      have hprevlen : (addNoiseAll noiseSample k actions).length = actions.length :=
        addNoiseAll_length noiseSample k actions
      have hj' : j < (addNoiseAll noiseSample k actions).length := by omega
      have hrowlen : (addNoiseAll noiseSample k actions)[j].length = A :=
        addNoiseAll_row_length noiseSample A hns k actions h _
          (List.getElem_mem hj')
      have hstep : addNoiseAll noiseSample (k + 1) actions =
          (addNoiseAll noiseSample k actions).map
            (fun row => List.zipWith (· + ·) row (noiseSample k)) := by
        simp only [addNoiseAll, List.range_succ, List.foldl_append, List.foldl_cons,
          List.foldl_nil]
      rw [hstep]
      have hmaplen : j < ((addNoiseAll noiseSample k actions).map
          (fun row => List.zipWith (· + ·) row (noiseSample k))).length := by
        simpa using hj'
      rw [List.getD_eq_getElem _ _ hmaplen, List.getElem_map]
      have hc2 : c < (List.zipWith (· + ·) ((addNoiseAll noiseSample k actions)[j])
          (noiseSample k)).length := by
        rw [List.length_zipWith, hrowlen, hns k]
        simp [hc]
      rw [List.getD_eq_getElem _ _ hc2, List.getElem_zipWith]
      have hIH := ih actions h j c hj hc
      rw [List.getD_eq_getElem _ _ hj'] at hIH
      rw [List.getD_eq_getElem _ _ (by omega : c < ((addNoiseAll noiseSample k actions)[j]).length)] at hIH
      rw [hIH, Finset.sum_range_succ]
      rw [List.getD_eq_getElem _ _ (by rw [hns k]; exact hc : c < (noiseSample k).length)]
      ring

/-- **C7 counterexample.** With two agents, `Agent.act` (ddpg_agent.py)
adds both noise processes' samples to every agent's action row
(`action += self.noise[i].sample()` broadcasts over the whole array), so
agent 0's action is `clip(0 + 1/10 + 1/5) = 3/10`, not the
`clip(0 + 1/10) = 1/10` that adding only its own single draw would give. -/
theorem act_own_noise_counterexample :
    act1 (fun _ => [0]) 2 (fun i => if i = 0 then [1/10] else [1/5]) [[0], [0]] true =
      [[3/10], [3/10]] ∧
    [[(3 : ℚ)/10], [3/10]] ≠ [[clip1 (0 + 1/10)], [clip1 (0 + 1/5)]] := by
  constructor
  · show ((addNoiseAll (fun i => if i = 0 then [(1:ℚ)/10] else [1/5]) 2
        [[0], [0]]).map (fun row => row.map clip1)) = [[3/10], [3/10]]
    have h1 : addNoiseAll (fun i => if i = 0 then [(1:ℚ)/10] else [1/5]) 2 [[0], [0]] =
        [[0 + 1/10 + 1/5], [0 + 1/10 + 1/5]] := by
      simp only [addNoiseAll, List.range_succ, List.range_zero, List.nil_append,
        List.foldl_cons, List.foldl_nil, List.map_cons, List.map_nil,
        List.zipWith_cons_cons, List.zipWith_nil_right]
      norm_num
    rw [h1]
    simp only [List.map_cons, List.map_nil, clip1]
    norm_num
  · intro h
    have h0 : ((3 : ℚ)/10) = clip1 (0 + 1/10) := by
      have := congrArg (fun l => (l.getD 0 []).getD 0 (0 : ℚ)) h
      simpa using this
    rw [clip1] at h0
    norm_num [min_def, max_def] at h0

/-- **C7 (amended).** Every coordinate returned by `Agent.act`
(ddpg_agent.py) lies in `[-1, 1]` — the clamp is unconditional and applied
after any noise; when `add_noise` holds, each of the `num_agents` noise
processes is sampled exactly once per call, and the broadcast `+=` adds the
sum of all these samples to every agent's action row before clamping. -/
theorem act_clamps_and_broadcasts_noise (actor : Vec → Vec) (num_agents : ℕ)
    (noiseSample : ℕ → Vec) (states : List Vec) (add_noise : Bool) (A : ℕ)
    (hact : ∀ s ∈ states, (actor s).length = A)
    (hns : ∀ i, (noiseSample i).length = A) :
    (∀ row ∈ act1 actor num_agents noiseSample states add_noise,
        ∀ x ∈ row, -1 ≤ x ∧ x ≤ 1) ∧
    act1 actor num_agents noiseSample states true =
      (addNoiseAll noiseSample num_agents (states.map actor)).map
        (fun row => row.map clip1) ∧
    (∀ j c, j < states.length → c < A →
      ((addNoiseAll noiseSample num_agents (states.map actor)).getD j []).getD c 0 =
        (actor (states.getD j [])).getD c 0 +
          ∑ i ∈ Finset.range num_agents, (noiseSample i).getD c 0) := by
  refine ⟨?_, rfl, ?_⟩
  · intro row hrow x hx
    simp only [act1] at hrow
    obtain ⟨r0, _, rfl⟩ := List.mem_map.mp hrow
    obtain ⟨y, _, rfl⟩ := List.mem_map.mp hx
    unfold clip1
    constructor
    · exact le_min (le_trans (by norm_num) (le_max_right y (-1))) (by norm_num)
    · exact min_le_right _ _
  · intro j c hj hc
    have hrows : ∀ r ∈ states.map actor, r.length = A := by
      intro r hr
      obtain ⟨s, hs, rfl⟩ := List.mem_map.mp hr
      exact hact s hs
    have h := addNoiseAll_getD noiseSample A hns num_agents (states.map actor) hrows
      j c (by simpa using hj) hc
    rw [h]
    have hmap : (states.map actor).getD j [] = actor (states.getD j []) := by
      rw [List.getD_eq_getElem _ _ (by simpa using hj), List.getElem_map,
        List.getD_eq_getElem _ _ hj]
    rw [hmap]

/-- Witness for C7 (amended): two agents, unit action dimension; the
pre-clamp entry of agent 0's row is the raw output plus the sum of both
agents' single draws. -/
theorem act_clamps_and_broadcasts_noise_witness :
    ((addNoiseAll (fun i => if i = 0 then [(1 : ℚ)/10] else [1/5]) 2
        (([[0], [0]] : List Vec).map (fun _ => ([0] : Vec)))).getD 0 []).getD 0 0 =
      ([0] : Vec).getD 0 0 +
        ∑ i ∈ Finset.range 2, (if i = 0 then [(1 : ℚ)/10] else [1/5]).getD 0 0 := by
  have h := act_clamps_and_broadcasts_noise (fun _ => ([0] : Vec)) 2
    (fun i => if i = 0 then [(1 : ℚ)/10] else [1/5]) [[0], [0]] true 1
    (fun _ _ => rfl) (by intro i; by_cases hi : i = 0 <;> simp [hi])
  exact h.2.2 0 0 (by decide) (by decide)

/-- **C10 counterexample.** Construction with `gamma = 2` (outside `(0,1]`),
`tau = 3/2` (outside `(0,1]`), `batch_size = -5` and `buffer_size = 0`
(both non-positive) succeeds and stores the values unchanged — the
constructor performs no hyperparameter validation. -/
theorem agent_init_no_validation_counterexample :
    agentInit 2 (3/2) (-5) 0 = Except.ok ⟨2, 3/2, -5, 0, []⟩ ∧
    ¬ ((2 : ℚ) ≤ 1) ∧ ¬ ((3/2 : ℚ) ≤ 1) ∧ ((-5 : ℤ) ≤ 0) ∧ ((0 : ℤ) ≤ 0) := by
  refine ⟨rfl, by norm_num, by norm_num, by norm_num, le_refl 0⟩

/-- **C10 (amended).** `Agent.__init__` (ddpg_agent_updated.py) rejects
only a negative buffer capacity — `deque(maxlen=...)` raises on it — and
accepts every other combination of hyperparameters, storing them
unchecked. -/
theorem agent_init_rejects_only_negative_capacity (gamma tau : ℚ) (bs cap : ℤ) :
    (cap < 0 → agentInit gamma tau bs cap = Except.error "maxlen must be non-negative") ∧
    (0 ≤ cap → agentInit gamma tau bs cap = Except.ok ⟨gamma, tau, bs, cap, []⟩) := by
  constructor
  · intro h
    simp [agentInit, mkDeque, h, Except.map]
  · intro h
    simp [agentInit, mkDeque, Int.not_lt.mpr h, Except.map]

/-- Witness for C10 (amended): capacity `-1` is rejected, capacity `0`
with wild `gamma`, `tau` and a negative batch size is accepted. -/
theorem agent_init_rejects_only_negative_capacity_witness :
    agentInit 2 (3/2) (-5) (-1) = Except.error "maxlen must be non-negative" ∧
    agentInit 2 (3/2) (-5) 0 = Except.ok ⟨2, 3/2, -5, 0, []⟩ := by
  exact ⟨(agent_init_rejects_only_negative_capacity 2 (3/2) (-5) (-1)).1 (by norm_num),
    (agent_init_rejects_only_negative_capacity 2 (3/2) (-5) 0).2 le_rfl⟩

theorem sampleTrace_length (S : List Transition → ℕ → List Transition × ℕ)
    (mem : List Transition) :
    ∀ (k rng : ℕ), (sampleTrace S mem k rng).1.length = k := by
  intro k
  induction k with
  | zero => intro rng; rfl
  | succ k ih =>
      intro rng
      simp only [sampleTrace, List.length_cons]
      rw [ih]

theorem rngIter_shift (S : List Transition → ℕ → List Transition × ℕ)
    (mem : List Transition) (rng : ℕ) :
    ∀ k : ℕ, rngIter S mem rng (k + 1) = rngIter S mem (S mem rng).2 k := by
  intro k
  induction k with
  | zero => rfl
  | succ k ih =>
      show (S mem (rngIter S mem rng (k + 1))).2 = (S mem (rngIter S mem (S mem rng).2 k)).2
      rw [ih]

theorem sampleTrace_getD (S : List Transition → ℕ → List Transition × ℕ)
    (mem : List Transition) :
    ∀ (k rng i : ℕ), i < k →
      (sampleTrace S mem k rng).1.getD i [] = (S mem (rngIter S mem rng i)).1 := by
  intro k
  induction k with
  | zero => intro rng i hi; omega
  | succ k ih =>
      intro rng i hi
      cases i with
      | zero => rfl
      | succ i =>
          show (sampleTrace S mem k (S mem rng).2).1.getD i [] = _
          rw [ih (S mem rng).2 i (by omega), rngIter_shift]

/-- **C2.** `Agent.step`: the call's transitions are appended to the replay
deque unconditionally; learning runs if and only if
`time_step % time_update = 0` and the post-write buffer holds strictly more
than `batch_size` transitions, in which case exactly `learning_rate`
learning iterations execute, the `i`-th drawing a fresh batch from the RNG
state advanced `i` times; in every other case the call ends after the
buffer write with the RNG untouched and no batch drawn. -/
theorem agent_step_spec (cfg : AgentHyper)
    (S : List Transition → ℕ → List Transition × ℕ)
    (mem : List Transition) (rng : ℕ) (time_step : ℕ)
    (transitions : List Transition) (_hcad : 0 < cfg.time_update) :
    (agentStep cfg S mem rng time_step transitions).memory =
      dequeAppendAll cfg.buffer_size mem transitions ∧
    (¬ (time_step % cfg.time_update = 0 ∧
          cfg.batch_size < (dequeAppendAll cfg.buffer_size mem transitions).length) →
        (agentStep cfg S mem rng time_step transitions).batches = [] ∧
        (agentStep cfg S mem rng time_step transitions).rng = rng) ∧
    ((time_step % cfg.time_update = 0 ∧
          cfg.batch_size < (dequeAppendAll cfg.buffer_size mem transitions).length) →
        (agentStep cfg S mem rng time_step transitions).batches.length = cfg.learning_rate ∧
        ∀ i, i < cfg.learning_rate →
          (agentStep cfg S mem rng time_step transitions).batches.getD i [] =
            (S (dequeAppendAll cfg.buffer_size mem transitions)
              (rngIter S (dequeAppendAll cfg.buffer_size mem transitions) rng i)).1) := by
  by_cases hmod : time_step % cfg.time_update > 0
  · have hne : ¬ (time_step % cfg.time_update = 0) := by omega
    simp only [agentStep, if_pos hmod]
    refine ⟨trivial, fun _ => ⟨trivial, trivial⟩, fun hcond => absurd hcond.1 hne⟩
  · have hz : time_step % cfg.time_update = 0 := by omega
    by_cases hlen : cfg.batch_size < (dequeAppendAll cfg.buffer_size mem transitions).length
    · simp only [agentStep, if_neg hmod, if_pos hlen]
      refine ⟨trivial, fun hcond => absurd ⟨hz, hlen⟩ hcond, fun _ => ⟨?_, ?_⟩⟩
      · exact sampleTrace_length S _ cfg.learning_rate rng
      · intro i hi
        exact sampleTrace_getD S _ cfg.learning_rate rng i hi
    · simp only [agentStep, if_neg hmod, if_neg hlen]
      refine ⟨trivial, fun _ => ⟨trivial, trivial⟩, fun hcond => absurd hcond.2 hlen⟩

/-- Witness for C2: cadence 5, batch size 1, two learning updates.  At
`time_step = 5` with three transitions in the buffer, exactly two batches
are drawn from successively advanced RNG states; at `time_step = 7` the
call only writes the buffer. -/
theorem agent_step_spec_witness :
    (agentStep ⟨99/100, 1/1000, 2, 5, 1, 10⟩ (fun m r => (m.take 1, r + 1))
        [Transition.dflt, Transition.dflt] 0 5 [Transition.dflt]).batches.length = 2 ∧
    (agentStep ⟨99/100, 1/1000, 2, 5, 1, 10⟩ (fun m r => (m.take 1, r + 1))
        [Transition.dflt, Transition.dflt] 0 7 [Transition.dflt]).batches = [] ∧
    (agentStep ⟨99/100, 1/1000, 2, 5, 1, 10⟩ (fun m r => (m.take 1, r + 1))
        [Transition.dflt, Transition.dflt] 0 5 [Transition.dflt]).memory =
      dequeAppendAll 10 [Transition.dflt, Transition.dflt] [Transition.dflt] := by
  have h5 := agent_step_spec ⟨99/100, 1/1000, 2, 5, 1, 10⟩
    (fun m r => (m.take 1, r + 1)) [Transition.dflt, Transition.dflt] 0 5
    [Transition.dflt] (by decide)
  have h7 := agent_step_spec ⟨99/100, 1/1000, 2, 5, 1, 10⟩
    (fun m r => (m.take 1, r + 1)) [Transition.dflt, Transition.dflt] 0 7
    [Transition.dflt] (by decide)
  refine ⟨(h5.2.2 ⟨by decide, by decide⟩).1, (h7.2.1 (by decide)).1, h5.1⟩
